import Mathlib

/-!
Shallow embedding of the chess engine in `src/script.js` (class `ChessGame`).

The board is the 8x8 grid `this.board`; a cell holds an optional piece
`{type, color, hasMoved}`.  Squares are pairs of `Fin 8` (row, column), matching
the in-range indices the UI supplies.  JavaScript's in-place mutation is modelled
functionally: query functions are pure, and the transient mutate-then-restore
simulations (`wouldLeaveKingInCheck`, `wouldBeInCheck`) additionally get
state-threading `...Run` variants that return the final state, so that the
restoration discipline itself can be verified.

`isSquareAttacked` dispatches through `isPieceMovementValid`, whose king case
calls `canCastle`, which calls back into `isInCheck`/`wouldBeInCheck` and hence
`isSquareAttacked`; in JavaScript this recursion is closed by the call stack
(and can overflow on pathological boards).  Here the knot is tied explicitly:
the movement cluster is parameterised by a castling oracle, and `canCastleF`
closes the recursion by fuel; `castleOracle` fixes a fuel large enough for
every board evaluated in this development.
-/

namespace Chess

inductive Color where
  | white
  | black
deriving DecidableEq, Repr

inductive PieceType where
  | pawn
  | knight
  | bishop
  | rook
  | queen
  | king
deriving DecidableEq, Repr

structure Piece where
  type : PieceType
  color : Color
  hasMoved : Bool
deriving DecidableEq, Repr

def Color.other : Color → Color
  | .white => .black
  | .black => .white

/-- Source `this.pieceValues` -/
def pieceValues : PieceType → Nat
  | .pawn => 1
  | .knight => 3
  | .bishop => 3
  | .rook => 5
  | .queen => 9
  | .king => 0

abbrev Pos := Fin 8 × Fin 8

abbrev Board := Pos → Option Piece

structure CastleFlags where
  kingside : Bool
  queenside : Bool
deriving DecidableEq, Repr

structure MoveRecord where
  fromSq : Pos
  toSq : Pos
  pieceType : PieceType
  captured : Option Piece
  enPassantTarget : Option Pos
deriving DecidableEq, Repr

/-- The mutable fields of the `ChessGame` object that the engine core touches
(UI-only fields such as `selectedSquare` are omitted). -/
structure GameState where
  board : Board
  currentPlayer : Color
  capturedPieces : Color → List Piece
  scores : Color → Nat
  moveHistory : List MoveRecord
  enPassantTarget : Option Pos
  castlingRights : Color → CastleFlags

def rI (p : Pos) : Int := (p.1 : Int)

def cI (p : Pos) : Int := (p.2 : Int)

/-- A coordinate pair as an optional in-range square. -/
def mkPos (r c : Int) : Option Pos :=
  if h : 0 ≤ r ∧ r < 8 ∧ 0 ≤ c ∧ c < 8 then
    some (⟨r.toNat, by omega⟩, ⟨c.toNat, by omega⟩)
  else none

/-- Board read at integer coordinates (out of range reads nothing, like the
JavaScript `undefined`). -/
def getSqI (b : Board) (r c : Int) : Option Piece :=
  match mkPos r c with
  | some p => b p
  | none => none

def setSq (b : Board) (p : Pos) (v : Option Piece) : Board :=
  Function.update b p v

/-- Row-major list of all squares, the order of every `for` scan in the source. -/
def allPos : List Pos :=
  (List.finRange 8).flatMap fun r => (List.finRange 8).map fun c => (r, c)

def sign (d : Int) : Int :=
  if 0 < d then 1 else if d < 0 then -1 else 0

/-- The walking loop of `isPathClear`; the fuel (always 8 at the call site)
bounds the walk, which for the aligned from/to pairs the callers supply always
reaches `(tR, tC)` in at most seven steps. -/
def pathClearAux (b : Board) (tR tC rStep cStep : Int) : Nat → Int → Int → Bool
  | 0, _, _ => true
  | n + 1, r, c =>
    if r = tR ∧ c = tC then true
    else if (getSqI b r c).isSome then false
    else pathClearAux b tR tC rStep cStep n (r + rStep) (c + cStep)

/-- Source `isPathClear(fromRow, fromCol, toRow, toCol)` -/
def isPathClear (b : Board) (f t : Pos) : Bool :=
  let rStep := sign (rI t - rI f)
  let cStep := sign (cI t - cI f)
  pathClearAux b (rI t) (cI t) rStep cStep 8 (rI f + rStep) (cI f + cStep)

/-- Source `direction` local of `isPawnMoveValid` -/
def pawnDir (c : Color) : Int :=
  if c = .white then -1 else 1

/-- Source `startRow` local of `isPawnMoveValid` -/
def pawnStartRow (c : Color) : Int :=
  if c = .white then 6 else 1

/-- Source `isPawnMoveValid(fromRow, fromCol, toRow, toCol)`; reads the moving pawn
from the board like the source does. -/
def isPawnMoveValid (s : GameState) (f t : Pos) : Bool :=
  match s.board f with
  | none => false
  | some piece =>
    let direction := pawnDir piece.color
    let startRow := pawnStartRow piece.color
    let rowDiff := rI t - rI f
    let colDiff := (cI t - cI f).natAbs
    if colDiff = 0 ∧ rowDiff = direction ∧ (s.board t).isNone then true
    else if colDiff = 0 ∧ rI f = startRow ∧ rowDiff = 2 * direction ∧ (s.board t).isNone then
      true
    else if colDiff = 1 ∧ rowDiff = direction then
      match s.board t with
      | some targetPiece => decide (targetPiece.color ≠ piece.color) ||
          decide (s.enPassantTarget = some t)
      | none => decide (s.enPassantTarget = some t)
    else false

/-- Source `isRookMoveValid` -/
def isRookMoveValid (b : Board) (f t : Pos) : Bool :=
  if rI f ≠ rI t ∧ cI f ≠ cI t then false
  else isPathClear b f t

/-- Source `isBishopMoveValid` -/
def isBishopMoveValid (b : Board) (f t : Pos) : Bool :=
  if (rI t - rI f).natAbs ≠ (cI t - cI f).natAbs then false
  else isPathClear b f t

/-- The type of the castling oracle closing the `canCastle` ↔ attack-detection
recursion: it answers `canCastle(fromRow, fromCol, toRow, toCol)`. -/
abbrev CastleOracle := GameState → Pos → Pos → Bool

/-- Source `isKingMoveValid`; the castling query goes to the oracle. -/
def isKingMoveValidO (oracle : CastleOracle) (s : GameState) (f t : Pos) : Bool :=
  let rowDiff := (rI t - rI f).natAbs
  let colDiff := (cI t - cI f).natAbs
  if rowDiff ≤ 1 ∧ colDiff ≤ 1 then true
  else if rowDiff = 0 ∧ colDiff = 2 then oracle s f t
  else false

/-- Source `isPieceMovementValid(pieceType, fromRow, fromCol, toRow, toCol)`; the
`default` branch of the source `switch` is unreachable for the closed
enumeration of piece kinds. -/
def isPieceMovementValidO (oracle : CastleOracle) (s : GameState) (pt : PieceType)
    (f t : Pos) : Bool :=
  match pt with
  | .pawn => isPawnMoveValid s f t
  | .rook => isRookMoveValid s.board f t
  | .knight =>
      decide (((rI t - rI f).natAbs = 2 ∧ (cI t - cI f).natAbs = 1) ∨
        ((rI t - rI f).natAbs = 1 ∧ (cI t - cI f).natAbs = 2))
  | .bishop => isBishopMoveValid s.board f t
  | .queen => isRookMoveValid s.board f t || isBishopMoveValid s.board f t
  | .king => isKingMoveValidO oracle s f t

/-- Source `isSquareAttacked(row, col, byColor)` -/
def isSquareAttackedO (oracle : CastleOracle) (s : GameState) (p : Pos)
    (byColor : Color) : Bool :=
  allPos.any fun f =>
    match s.board f with
    | some piece =>
        decide (piece.color = byColor) && isPieceMovementValidO oracle s piece.type f p
    | none => false

/-- Source `findKing(color)`: the first king of that color in row-major scan order. -/
def findKing (s : GameState) (c : Color) : Option Pos :=
  allPos.find? fun p =>
    match s.board p with
    | some piece => decide (piece.type = .king ∧ piece.color = c)
    | none => false

/-- Source `isInCheck(color)` -/
def isInCheckO (oracle : CastleOracle) (s : GameState) (c : Color) : Bool :=
  match findKing s c with
  | none => false
  | some kingPos => isSquareAttackedO oracle s kingPos c.other

/-- Source `wouldBeInCheck(color, kingRow, kingCol)`: places a hypothetical king on the
square (its `hasMoved` is left undefined in the source, a falsy value) and asks
whether it is attacked; the pure result of the mutate-query-restore block. -/
def wouldBeInCheckO (oracle : CastleOracle) (s : GameState) (c : Color) (kp : Pos) : Bool :=
  isSquareAttackedO oracle
    { s with board := setSq s.board kp (some ⟨.king, c, false⟩) } kp c.other

/-- Source `canCastle(fromRow, fromCol, toRow, toCol)`, with its recursive attack
queries going through the oracle.  Out-of-range transit columns (impossible for
the two-column king moves that reach this function) answer `false`. -/
def canCastleO (oracle : CastleOracle) (s : GameState) (f t : Pos) : Bool :=
  match s.board f with
  | none => false
  | some piece =>
    if piece.hasMoved then false
    else
      let isKingside := cI f < cI t
      let rookCol : Fin 8 := if isKingside then 7 else 0
      match s.board (f.1, rookCol) with
      | none => false
      | some rook =>
        if rook.type ≠ .rook ∨ rook.hasMoved then false
        else
          let flags := s.castlingRights piece.color
          if !(if isKingside then flags.kingside else flags.queenside) then false
          else
            let startCol := min (cI f) (cI (f.1, rookCol))
            let endCol := max (cI f) (cI (f.1, rookCol))
            if !((List.finRange 8).all fun c =>
                !(decide (startCol < (c : Int) ∧ (c : Int) < endCol)) ||
                  !(s.board (f.1, c)).isSome) then false
            else if isInCheckO oracle s piece.color then false
            else
              let step : Int := if isKingside then 1 else -1
              match mkPos (rI f) (cI f + step), mkPos (rI f) (cI f + 2 * step) with
              | some q1, some q2 =>
                  if wouldBeInCheckO oracle s piece.color q1 then false
                  else if wouldBeInCheckO oracle s piece.color q2 then false
                  else true
              | _, _ => false

/-- Closing the recursion through `canCastle` by fuel. -/
def canCastleF : Nat → CastleOracle
  | 0 => fun _ _ _ => false
  | n + 1 => fun s f t => canCastleO (canCastleF n) s f t

/-- Recursion depth reached by no evaluation in this development. -/
def castleFuel : Nat := 16

def castleOracle : CastleOracle := canCastleF castleFuel

def canCastle : GameState → Pos → Pos → Bool := canCastleF (castleFuel + 1)

def isPieceMovementValid (s : GameState) (pt : PieceType) (f t : Pos) : Bool :=
  isPieceMovementValidO castleOracle s pt f t

def isSquareAttacked (s : GameState) (p : Pos) (byColor : Color) : Bool :=
  isSquareAttackedO castleOracle s p byColor

def isInCheck (s : GameState) (c : Color) : Bool :=
  isInCheckO castleOracle s c

def wouldBeInCheck (s : GameState) (c : Color) (kp : Pos) : Bool :=
  wouldBeInCheckO castleOracle s c kp

/-- The pure result of `wouldLeaveKingInCheck(fromRow, fromCol, toRow, toCol)`:
check status after relocating just the one piece (the state-restoration half of
the source function is verified separately on `wouldLeaveKingInCheckRun`). -/
def wouldLeaveKingInCheckO (oracle : CastleOracle) (s : GameState) (f t : Pos) : Bool :=
  match s.board f with
  | none => false
  | some piece =>
      isInCheckO oracle
        { s with board := setSq (setSq s.board t (some piece)) f none } piece.color

def wouldLeaveKingInCheck (s : GameState) (f t : Pos) : Bool :=
  wouldLeaveKingInCheckO castleOracle s f t

/-- Source `isValidMove(fromRow, fromCol, toRow, toCol)`; the source's bounds test on
`toRow`/`toCol` is vacuous for `Fin 8` coordinates. -/
def isValidMoveO (oracle : CastleOracle) (s : GameState) (f t : Pos) : Bool :=
  match s.board f with
  | none => false
  | some piece =>
    if piece.color ≠ s.currentPlayer then false
    else if (match s.board t with
             | some targetPiece => decide (targetPiece.color = piece.color)
             | none => false) then false
    else if !(isPieceMovementValidO oracle s piece.type f t) then false
    else if wouldLeaveKingInCheckO oracle s f t then false
    else true

def isValidMove (s : GameState) (f t : Pos) : Bool :=
  isValidMoveO castleOracle s f t

/-- Source `getValidMoves(row, col)` -/
def getValidMoves (s : GameState) (p : Pos) : List Pos :=
  if (s.board p).isNone then []
  else allPos.filter fun q => isValidMove s p q

structure Move where
  fromSq : Pos
  toSq : Pos
deriving DecidableEq, Repr

/-- Source `getAllValidMoves(color)` -/
def getAllValidMoves (s : GameState) (c : Color) : List Move :=
  allPos.flatMap fun f =>
    match s.board f with
    | some piece =>
        if piece.color = c then (getValidMoves s f).map fun t => ⟨f, t⟩ else []
    | none => []

/-- Source `isCheckmate(color)` -/
def isCheckmate (s : GameState) (c : Color) : Bool :=
  isInCheck s c &&
    (allPos.all fun f =>
      match s.board f with
      | some piece => if piece.color = c then (getValidMoves s f).isEmpty else true
      | none => true)

/-- Source `isStalemate(color)` -/
def isStalemate (s : GameState) (c : Color) : Bool :=
  !(isInCheck s c) &&
    (allPos.all fun f =>
      match s.board f with
      | some piece => if piece.color = c then (getValidMoves s f).isEmpty else true
      | none => true)

/-- Source `capturePiece(piece)`: the piece is pushed onto the captured list of the
opposite colour — the colour that captured it — and that same colour's score is
raised by the piece value. -/
def capturePiece (s : GameState) (p : Piece) : GameState :=
  { s with
    capturedPieces :=
      Function.update s.capturedPieces p.color.other
        (s.capturedPieces p.color.other ++ [p])
    scores :=
      Function.update s.scores p.color.other
        (s.scores p.color.other + pieceValues p.type) }

/-- The castling block of `handleSpecialMoves`: on a two-column king move,
relocate the rook and mark it moved.  A missing rook (on which the JavaScript
would throw) leaves the state unchanged; no validated move reaches that case. -/
def castlePhase (s : GameState) (piece : Piece) (f t : Pos) : GameState :=
  if piece.type = .king ∧ (cI t - cI f).natAbs = 2 then
    let isKingside := cI f < cI t
    let rookFromCol : Fin 8 := if isKingside then 7 else 0
    let rookToCol : Fin 8 := if isKingside then 5 else 3
    match s.board (f.1, rookFromCol) with
    | some rook =>
        let movedRook : Option Piece := some { rook with hasMoved := true }
        let b1 := setSq (setSq s.board (f.1, rookToCol) movedRook) (f.1, rookFromCol) none
        { s with board := b1 }
    | none => s
  else s

/-- The en-passant block of `handleSpecialMoves`: a pawn arriving on the active
en-passant target square captures the passed pawn sitting behind it.  The
fallbacks mark inputs on which the JavaScript would throw (an out-of-range row,
or no pawn on the computed square); no validated move reaches them. -/
def enPassantPhase (s1 : GameState) (piece : Piece) (t : Pos) : GameState :=
  if piece.type = .pawn ∧ s1.enPassantTarget = some t then
    let capturedPawnRow := if piece.color = .white then rI t + 1 else rI t - 1
    match mkPos capturedPawnRow (cI t) with
    | some cp =>
        match s1.board cp with
        | some capturedPawn =>
            let s2 := capturePiece s1 capturedPawn
            { s2 with board := setSq s2.board cp none }
        | none => s1
    | none => s1
  else s1

/-- Source `handleSpecialMoves(fromRow, fromCol, toRow, toCol)`: the castling block,
then the en-passant block.  A missing mover leaves the state unchanged (the
JavaScript would throw). -/
def handleSpecialMoves (s : GameState) (f t : Pos) : GameState :=
  match s.board f with
  | none => s
  | some piece => enPassantPhase (castlePhase s piece f t) piece t

/-- Source `updateEnPassantTarget(piece, fromRow, fromCol, toRow, toCol)` -/
def updateEnPassantTarget (s : GameState) (piece : Piece) (f t : Pos) : GameState :=
  if piece.type = .pawn ∧ (rI t - rI f).natAbs = 2 then
    { s with enPassantTarget := mkPos ((rI f + rI t) / 2) (cI t) }
  else { s with enPassantTarget := none }

/-- Source `updateCastlingRights(piece, fromRow, fromCol)` -/
def updateCastlingRights (s : GameState) (piece : Piece) (f : Pos) : GameState :=
  if piece.type = .king then
    { s with castlingRights := Function.update s.castlingRights piece.color ⟨false, false⟩ }
  else if piece.type = .rook then
    if cI f = 0 then
      let noQueenside := { s.castlingRights piece.color with queenside := false }
      { s with castlingRights := Function.update s.castlingRights piece.color noQueenside }
    else if cI f = 7 then
      let noKingside := { s.castlingRights piece.color with kingside := false }
      { s with castlingRights := Function.update s.castlingRights piece.color noKingside }
    else s
  else s

/-- Source `makeMove(fromRow, fromCol, toRow, toCol)` minus rendering; the promotion
modal it may open afterwards is UI.  A missing mover (on which the JavaScript
would throw) leaves the state unchanged. -/
def makeMove (s : GameState) (f t : Pos) : GameState :=
  match s.board f with
  | none => s
  | some piece =>
    let capturedPiece := s.board t
    let s1 := handleSpecialMoves s f t
    let s2 := match capturedPiece with
      | some cp => capturePiece s1 cp
      | none => s1
    let movedPiece : Option Piece := some { piece with hasMoved := true }
    let b3 := setSq (setSq s2.board t movedPiece) f none
    let s3 := { s2 with board := b3 }
    let s4 := updateCastlingRights s3 piece f
    let record : MoveRecord := ⟨f, t, piece.type, capturedPiece, s4.enPassantTarget⟩
    let s5 := { s4 with moveHistory := s4.moveHistory ++ [record] }
    updateEnPassantTarget s5 piece f t

/-- The player-flip half of `switchPlayer()` (the rest is UI and the bot timer). -/
def switchPlayer (s : GameState) : GameState :=
  { s with currentPlayer := s.currentPlayer.other }

/-- Row 0/7 piece layout of `initializeBoard` -/
def backRank : Fin 8 → PieceType
  | 0 => .rook
  | 1 => .knight
  | 2 => .bishop
  | 3 => .queen
  | 4 => .king
  | 5 => .bishop
  | 6 => .knight
  | 7 => .rook

/-- The board `initializeBoard` builds: rows below 2 are black, 6 and 7 white. -/
def initialBoard : Board := fun p =>
  if p.1 = 0 then some ⟨backRank p.2, .black, false⟩
  else if p.1 = 1 then some ⟨.pawn, .black, false⟩
  else if p.1 = 6 then some ⟨.pawn, .white, false⟩
  else if p.1 = 7 then some ⟨backRank p.2, .white, false⟩
  else none

/-- The game state the `ChessGame` constructor establishes. -/
def initialState : GameState where
  board := initialBoard
  currentPlayer := .white
  capturedPieces := fun _ => []
  scores := fun _ => 0
  moveHistory := []
  enPassantTarget := none
  castlingRights := fun _ => ⟨true, true⟩

/-- Game states the controller can reach: each step is a move accepted by
`isValidMove`, applied by `makeMove`, followed by the player switch. -/
inductive Reachable : GameState → Prop where
  | init : Reachable initialState
  | step {s : GameState} {f t : Pos} :
      Reachable s → isValidMove s f t = true →
      Reachable (switchPlayer (makeMove s f t))

/-- Value of the piece a move would capture (`pieceValues[cap.type]`). -/
def capVal (s : GameState) (m : Move) : Nat :=
  match s.board m.toSq with
  | some p => pieceValues p.type
  | none => 0

/-- The check-classification simulation inside `getHardMove` (and
`getMediumMove`): relocate the piece and test `isInCheck('white')` — the colour
is hardcoded in the source. -/
def isCheckMoveHard (s : GameState) (m : Move) : Bool :=
  isInCheck
    { s with board := setSq (setSq s.board m.toSq (s.board m.fromSq)) m.fromSq none }
    .white

/-- Stable insertion of `m` into a list already sorted by strictly decreasing
`v`, keeping `m` after earlier-listed elements of equal value. -/
def insertByDesc (v : Move → Nat) (m : Move) : List Move → List Move
  | [] => [m]
  | x :: xs => if v x ≤ v m then m :: x :: xs else x :: insertByDesc v m xs

/-- Stable descending sort by `v`: the model of the source's
`captures.sort((a, b) => pieceValues[capB.type] - pieceValues[capA.type])`
(ECMAScript `Array.prototype.sort` is stable, so any stable descending sort
produces the identical list). -/
def sortByDesc (v : Move → Nat) : List Move → List Move
  | [] => []
  | x :: xs => insertByDesc v x (sortByDesc v xs)

/-- Source `getHardMove(moves)`.  `rnd` models the one `Math.random()` draw of the
final fallback branch as a pre-chosen index. -/
def getHardMove (s : GameState) (moves : List Move) (rnd : Nat) : Option Move :=
  let captures := moves.filter fun m => (s.board m.toSq).isSome
  let checks := (moves.filter fun m => !(s.board m.toSq).isSome).filter fun m =>
    isCheckMoveHard s m
  if captures ≠ [] then (sortByDesc (capVal s) captures).head?
  else if checks ≠ [] then checks.head?
  else moves.get? (rnd % moves.length)

/-- Largest captured-piece value among a list of moves. -/
def maxCapVal (s : GameState) (l : List Move) : Nat :=
  (l.map (capVal s)).foldr max 0

/-- Modelled from the spec's words for comparison with `getHardMove`: among the
capture moves, the first (in scan order) whose captured piece has the highest
material value. -/
def specHardChoice (s : GameState) (moves : List Move) : Option Move :=
  let captures := moves.filter fun m => (s.board m.toSq).isSome
  captures.find? fun m => capVal s m == maxCapVal s captures

/-!
State-threading (`Run`) variants.  The JavaScript validator mutates `this.board`
in place inside `wouldLeaveKingInCheck` and `wouldBeInCheck` and restores it
before returning.  The `Run` functions make that explicit: each returns the
Boolean answer together with the state as it is when the function returns, so
"the call leaves the state exactly as it found it" is a provable equation
rather than a modelling assumption.  Pure read-only subroutines (geometry,
`findKing`, path checks) need no threading.
-/

/-- A castling oracle that also reports the state it leaves behind. -/
abbrev CastleOracleRun := GameState → Pos → Pos → Bool × GameState

def isKingMoveValidRunO (oracle : CastleOracleRun) (s : GameState) (f t : Pos) :
    Bool × GameState :=
  let rowDiff := (rI t - rI f).natAbs
  let colDiff := (cI t - cI f).natAbs
  if rowDiff ≤ 1 ∧ colDiff ≤ 1 then (true, s)
  else if rowDiff = 0 ∧ colDiff = 2 then oracle s f t
  else (false, s)

def isPieceMovementValidRunO (oracle : CastleOracleRun) (s : GameState)
    (pt : PieceType) (f t : Pos) : Bool × GameState :=
  match pt with
  | .king => isKingMoveValidRunO oracle s f t
  | other => (isPieceMovementValidO (fun st a b => (oracle st a b).1) s other f t, s)

/-- Source `isSquareAttacked`, threading the state through each piece's movement
query (whose king case may transiently mutate the board via castling checks);
the scan stops at the first attacker, like the source's early `return`. -/
def isSquareAttackedRunO (oracle : CastleOracleRun) (s : GameState) (p : Pos)
    (byColor : Color) : Bool × GameState :=
  allPos.foldl
    (fun acc f =>
      if acc.1 then acc
      else
        match acc.2.board f with
        | some piece =>
            if piece.color = byColor then
              isPieceMovementValidRunO oracle acc.2 piece.type f p
            else (false, acc.2)
        | none => (false, acc.2))
    (false, s)

/-- Source `wouldBeInCheck` with explicit place-king / query / restore steps. -/
def wouldBeInCheckRun (oracle : CastleOracleRun) (s : GameState) (c : Color)
    (kp : Pos) : Bool × GameState :=
  let originalPiece := s.board kp
  let s1 := { s with board := setSq s.board kp (some ⟨.king, c, false⟩) }
  let res := isSquareAttackedRunO oracle s1 kp c.other
  (res.1, { res.2 with board := setSq res.2.board kp originalPiece })

def isInCheckRunO (oracle : CastleOracleRun) (s : GameState) (c : Color) :
    Bool × GameState :=
  match findKing s c with
  | none => (false, s)
  | some kingPos => isSquareAttackedRunO oracle s kingPos c.other

/-- Source `canCastle` with the state threaded through its attack queries. -/
def canCastleRunO (oracle : CastleOracleRun) (s : GameState) (f t : Pos) :
    Bool × GameState :=
  match s.board f with
  | none => (false, s)
  | some piece =>
    if piece.hasMoved then (false, s)
    else
      let isKingside := cI f < cI t
      let rookCol : Fin 8 := if isKingside then 7 else 0
      match s.board (f.1, rookCol) with
      | none => (false, s)
      | some rook =>
        if rook.type ≠ .rook ∨ rook.hasMoved then (false, s)
        else
          let flags := s.castlingRights piece.color
          if !(if isKingside then flags.kingside else flags.queenside) then (false, s)
          else
            let startCol := min (cI f) (cI (f.1, rookCol))
            let endCol := max (cI f) (cI (f.1, rookCol))
            if !((List.finRange 8).all fun c =>
                !(decide (startCol < (c : Int) ∧ (c : Int) < endCol)) ||
                  !(s.board (f.1, c)).isSome) then (false, s)
            else
              let chk := isInCheckRunO oracle s piece.color
              if chk.1 then (false, chk.2)
              else
                let step : Int := if isKingside then 1 else -1
                match mkPos (rI f) (cI f + step), mkPos (rI f) (cI f + 2 * step) with
                | some q1, some q2 =>
                    let w1 := wouldBeInCheckRun oracle chk.2 piece.color q1
                    if w1.1 then (false, w1.2)
                    else
                      let w2 := wouldBeInCheckRun oracle w1.2 piece.color q2
                      if w2.1 then (false, w2.2) else (true, w2.2)
                | _, _ => (false, chk.2)

def canCastleRunF : Nat → CastleOracleRun
  | 0 => fun s _ _ => (false, s)
  | n + 1 => fun s f t => canCastleRunO (canCastleRunF n) s f t

def castleOracleRun : CastleOracleRun := canCastleRunF castleFuel

/-- Source `wouldLeaveKingInCheck` with its explicit move / query / restore steps
(restore order as in the source: `board[from] = piece; board[to] = captured`). -/
def wouldLeaveKingInCheckRun (oracle : CastleOracleRun) (s : GameState) (f t : Pos) :
    Bool × GameState :=
  match s.board f with
  | none => (false, s)
  | some piece =>
    let capturedPiece := s.board t
    let s1 := { s with board := setSq (setSq s.board t (some piece)) f none }
    let res := isInCheckRunO oracle s1 piece.color
    let b2 := setSq (setSq res.2.board f (some piece)) t capturedPiece
    (res.1, { res.2 with board := b2 })

def isValidMoveRunO (oracle : CastleOracleRun) (s : GameState) (f t : Pos) :
    Bool × GameState :=
  match s.board f with
  | none => (false, s)
  | some piece =>
    if piece.color ≠ s.currentPlayer then (false, s)
    else if (match s.board t with
             | some targetPiece => decide (targetPiece.color = piece.color)
             | none => false) then (false, s)
    else
      let mv := isPieceMovementValidRunO oracle s piece.type f t
      if !mv.1 then (false, mv.2)
      else
        let chk := wouldLeaveKingInCheckRun oracle mv.2 f t
        if chk.1 then (false, chk.2) else (true, chk.2)

/-- Source `isValidMove` with the board mutations of its simulations threaded through. -/
def isValidMoveRun (s : GameState) (f t : Pos) : Bool × GameState :=
  isValidMoveRunO castleOracleRun s f t

/-- An oracle of the state-threading kind that puts the state back. -/
def PreservesRun (o : CastleOracleRun) : Prop :=
  ∀ s f t, (o s f t).2 = s

/-- Sum of the piece values of a captured-piece list. -/
def sumValues (l : List Piece) : Nat :=
  (l.map fun p => pieceValues p.type).sum

/-- The convention asserted by the claim under examination for C7: every piece
in `captured[c]` is of colour `c` (recorded under the colour that lost it). -/
def capturedUnderOwnColor (s : GameState) : Prop :=
  ∀ c : Color, ∀ p ∈ s.capturedPieces c, p.color = c

/-- The score/captured-list invariant the code actually maintains: each
colour's score is the summed value of its captured list, and that list holds
pieces of the opposite colour (recorded under the capturing colour). -/
def ScoreInv (s : GameState) (c : Color) : Prop :=
  s.scores c = sumValues (s.capturedPieces c) ∧
  ∀ p ∈ s.capturedPieces c, p.color = c.other

/-- Is a king of colour `c` on this square? -/
def kingAt (s : GameState) (c : Color) (p : Pos) : Bool :=
  match s.board p with
  | some piece => decide (piece.type = .king ∧ piece.color = c)
  | none => false

/-!  Concrete fixtures used by the per-claim theorems and witnesses. -/

/-- A game state with no pieces at all. -/
def emptyState : GameState where
  board := fun _ => none
  currentPlayer := .white
  capturedPieces := fun _ => []
  scores := fun _ => 0
  moveHistory := []
  enPassantTarget := none
  castlingRights := fun _ => ⟨true, true⟩

/-- Rank-pin en-passant fixture: black rook a5, black pawn d5 (which has just
double-stepped, en-passant target d6), white pawn e5, white king h5, black king
e8.  The rook's line to the white king is blocked only by the two pawns. -/
def epPinBoard : Board := fun p =>
  if p = ((3 : Fin 8), (0 : Fin 8)) then some ⟨.rook, .black, true⟩
  else if p = ((3 : Fin 8), (3 : Fin 8)) then some ⟨.pawn, .black, true⟩
  else if p = ((3 : Fin 8), (4 : Fin 8)) then some ⟨.pawn, .white, true⟩
  else if p = ((3 : Fin 8), (7 : Fin 8)) then some ⟨.king, .white, true⟩
  else if p = ((0 : Fin 8), (4 : Fin 8)) then some ⟨.king, .black, true⟩
  else none

def epPinState : GameState where
  board := epPinBoard
  currentPlayer := .white
  capturedPieces := fun _ => []
  scores := fun _ => 0
  moveHistory := []
  enPassantTarget := some ((2 : Fin 8), (3 : Fin 8))
  castlingRights := fun _ => ⟨false, false⟩

/-- Pawn-jump fixture: white pawn e2 on its starting rank, black knight e3 on
the intervening square, e4 empty; kings tucked in the corners. -/
def jumpBoard : Board := fun p =>
  if p = ((6 : Fin 8), (4 : Fin 8)) then some ⟨.pawn, .white, false⟩
  else if p = ((5 : Fin 8), (4 : Fin 8)) then some ⟨.knight, .black, true⟩
  else if p = ((7 : Fin 8), (0 : Fin 8)) then some ⟨.king, .white, true⟩
  else if p = ((0 : Fin 8), (0 : Fin 8)) then some ⟨.king, .black, true⟩
  else none

def jumpState : GameState where
  board := jumpBoard
  currentPlayer := .white
  capturedPieces := fun _ => []
  scores := fun _ => 0
  moveHistory := []
  enPassantTarget := none
  castlingRights := fun _ => ⟨false, false⟩

/-- Reachable states of the C7 counterexample: 1. e2-e4 d7-d5 2. a2-a3 d5xe4,
after which black has captured the white e-pawn. -/
def seqSt1 : GameState :=
  switchPlayer (makeMove initialState ((6 : Fin 8), (4 : Fin 8)) ((4 : Fin 8), (4 : Fin 8)))

def seqSt2 : GameState :=
  switchPlayer (makeMove seqSt1 ((1 : Fin 8), (3 : Fin 8)) ((3 : Fin 8), (3 : Fin 8)))

def seqSt3 : GameState :=
  switchPlayer (makeMove seqSt2 ((6 : Fin 8), (0 : Fin 8)) ((5 : Fin 8), (0 : Fin 8)))

def seqSt4 : GameState :=
  switchPlayer (makeMove seqSt3 ((3 : Fin 8), (3 : Fin 8)) ((4 : Fin 8), (4 : Fin 8)))

/-- C8 fixture: black to move, a single capture available (rook a8 takes the
white queen on a4). -/
def c8Board : Board := fun p =>
  if p = ((0 : Fin 8), (0 : Fin 8)) then some ⟨.rook, .black, true⟩
  else if p = ((4 : Fin 8), (0 : Fin 8)) then some ⟨.queen, .white, true⟩
  else if p = ((7 : Fin 8), (7 : Fin 8)) then some ⟨.king, .white, true⟩
  else if p = ((0 : Fin 8), (7 : Fin 8)) then some ⟨.king, .black, true⟩
  else none

def c8State : GameState where
  board := c8Board
  currentPlayer := .black
  capturedPieces := fun _ => []
  scores := fun _ => 0
  moveHistory := []
  enPassantTarget := none
  castlingRights := fun _ => ⟨false, false⟩

def c8Moves : List Move :=
  [⟨((0 : Fin 8), (0 : Fin 8)), ((4 : Fin 8), (0 : Fin 8))⟩]

/-- C10 fixture: a lone white pawn on e2 with empty squares ahead. -/
def pawnAttackBoard : Board := fun p =>
  if p = ((6 : Fin 8), (4 : Fin 8)) then some ⟨.pawn, .white, false⟩
  else if p = ((7 : Fin 8), (0 : Fin 8)) then some ⟨.king, .white, true⟩
  else if p = ((0 : Fin 8), (0 : Fin 8)) then some ⟨.king, .black, true⟩
  else none

def pawnAttackState : GameState where
  board := pawnAttackBoard
  currentPlayer := .white
  capturedPieces := fun _ => []
  scores := fun _ => 0
  moveHistory := []
  enPassantTarget := none
  castlingRights := fun _ => ⟨false, false⟩

/-!  Theorems. -/

/-- Claim C1: the king-safety simulate-then-reject step of `isValidMove` is
claimed to cover every move type, en passant included — so an accepted move,
once actually applied (with the passed pawn removed), should never leave the
mover's king attacked.  This theorem exhibits the code's behaviour on the
rank-pin fixture: `wouldLeaveKingInCheck` relocates only the capturing pawn and
does not remove the passed pawn, so the en-passant capture d5xe6(?) from
`epPinState` is accepted, yet after `makeMove` performs the real capture the
white king stands attacked by the rook on the now-open rank.  The claim fails
on the code. -/
theorem c1_enPassant_escapes_kingSafety :
    isValidMove epPinState ((3 : Fin 8), (4 : Fin 8)) ((2 : Fin 8), (3 : Fin 8)) = true ∧
    isInCheck (makeMove epPinState ((3 : Fin 8), (4 : Fin 8)) ((2 : Fin 8), (3 : Fin 8)))
      .white = true := by
  constructor
  · decide
  · decide

/-- Claim C2: a pawn's two-square advance is claimed to require the intervening
square to be empty.  In `isPawnMoveValid` the two-square branch tests only the
starting rank and the destination, so from `jumpState` the move e2-e4 is
accepted although a knight occupies the intervening square e3.  The claim fails
on the code. -/
theorem c2_pawn_two_square_jump_accepted :
    (jumpState.board ((5 : Fin 8), (4 : Fin 8))).isSome = true ∧
    isValidMove jumpState ((6 : Fin 8), (4 : Fin 8)) ((4 : Fin 8), (4 : Fin 8)) = true := by
  constructor
  · decide
  · decide

theorem flatMap_nil_of_forall {α β : Type} (g : α → List β) :
    ∀ l : List α, (∀ x ∈ l, g x = []) → l.flatMap g = [] := by
  intro l
  induction l with
  | nil => intro _; rfl
  | cons x xs ih =>
      intro h
      rw [List.flatMap_cons, h x (List.mem_cons_self x xs), List.nil_append]
      exact ih fun y hy => h y (List.mem_cons_of_mem x hy)

/-- Claim C4: `isCheckmate(c)` and `isStalemate(c)` are never both true (one
demands `isInCheck`, the other its negation), and either one entails that
`getAllValidMoves(c)` is empty: both scan the same per-piece `getValidMoves`
lists that `getAllValidMoves` concatenates. -/
theorem c4_terminal_classification (s : GameState) (c : Color) :
    ¬(isCheckmate s c = true ∧ isStalemate s c = true) ∧
    ((isCheckmate s c = true ∨ isStalemate s c = true) → getAllValidMoves s c = []) := by
  constructor
  · rintro ⟨hm, hs⟩
    rw [isCheckmate, Bool.and_eq_true] at hm
    rw [isStalemate, Bool.and_eq_true] at hs
    rw [hm.1] at hs
    exact absurd hs.1 (by decide)
  · intro h
    have hall : (allPos.all fun f =>
        match s.board f with
        | some piece => if piece.color = c then (getValidMoves s f).isEmpty else true
        | none => true) = true := by
      rcases h with hm | hs
      · rw [isCheckmate, Bool.and_eq_true] at hm
        exact hm.2
      · rw [isStalemate, Bool.and_eq_true] at hs
        exact hs.2
    rw [List.all_eq_true] at hall
    rw [getAllValidMoves]
    apply flatMap_nil_of_forall
    intro f hf
    have hval := hall f hf
    cases hb : s.board f with
    | none => simp [hb]
    | some piece =>
        rw [hb] at hval
        by_cases hc : piece.color = c
        · have hval2 : (getValidMoves s f).isEmpty = true := by simpa [hc] using hval
          rw [List.isEmpty_iff] at hval2
          simp [hb, hc, hval2]
        · simp [hb, hc]

theorem c4_witness :
    ¬(isCheckmate emptyState .white = true ∧ isStalemate emptyState .white = true) ∧
    getAllValidMoves emptyState .white = [] :=
  ⟨(c4_terminal_classification emptyState .white).1,
   (c4_terminal_classification emptyState .white).2 (Or.inr (by decide))⟩

theorem mem_allPos : ∀ p : Pos, p ∈ allPos := by decide

/-- Claim C9: with no king of colour `c` on the board, `isInCheck(c)` returns
`false` (because `findKing` returns nothing) rather than failing; with a unique
king of colour `c`, it reports whether that king's square is attacked by the
opposite colour. -/
theorem c9_isInCheck_king_lookup (s : GameState) (c : Color) :
    ((∀ p, kingAt s c p = false) → isInCheck s c = false) ∧
    (∀ kp, (∀ p, kingAt s c p = true ↔ p = kp) →
      isInCheck s c = isSquareAttacked s kp c.other) := by
  have hfind : findKing s c = allPos.find? fun p => kingAt s c p := rfl
  constructor
  · intro h
    have hnone : findKing s c = none := by
      rw [hfind]
      exact List.find?_eq_none.mpr fun a _ => by simp [h a]
    simp [isInCheck, isInCheckO, hnone]
  · intro kp hkp
    have hk : kingAt s c kp = true := (hkp kp).mpr rfl
    cases hfq : findKing s c with
    | none =>
        exact absurd hk (by
          rw [hfind] at hfq
          exact List.find?_eq_none.mp hfq kp (mem_allPos kp))
    | some q =>
        have hq : kingAt s c q = true := List.find?_some (hfind ▸ hfq)
        have hqkp : q = kp := (hkp q).mp hq
        subst hqkp
        simp [isInCheck, isInCheckO, hfq, isSquareAttacked]

theorem c9_witness :
    isInCheck emptyState .white = false ∧
    isInCheck initialState .white =
      isSquareAttacked initialState ((7 : Fin 8), (4 : Fin 8)) Color.white.other :=
  ⟨(c9_isInCheck_king_lookup emptyState .white).1 (by decide),
   (c9_isInCheck_king_lookup initialState .white).2 ((7 : Fin 8), (4 : Fin 8)) (by decide)⟩

/-- Claim C10: the attack scan counts a pawn's non-capturing pushes as attacks.
For a pawn of `byColor`: the empty square directly ahead is reported attacked;
from the starting rank, so is the empty square two ahead (the code does not
look at the intervening square); and a forward-diagonal square counts as a
pawn move exactly when it holds an enemy piece or is the active en-passant
target. -/
theorem c10_pawn_attack_model (s : GameState) (f : Pos) (piece : Piece) (byColor : Color)
    (hp : s.board f = some piece) (hpt : piece.type = .pawn) (hc : piece.color = byColor) :
    (∀ t : Pos, rI t = rI f + pawnDir byColor → cI t = cI f → s.board t = none →
      isSquareAttacked s t byColor = true) ∧
    (∀ t : Pos, rI f = pawnStartRow byColor → rI t = rI f + 2 * pawnDir byColor →
      cI t = cI f → s.board t = none → isSquareAttacked s t byColor = true) ∧
    (∀ t : Pos, (cI t - cI f).natAbs = 1 → rI t = rI f + pawnDir byColor →
      (isPieceMovementValid s .pawn f t = true ↔
        ((∃ tp, s.board t = some tp ∧ tp.color ≠ byColor) ∨
          s.enPassantTarget = some t))) := by
  refine ⟨?_, ?_, ?_⟩
  · intro t h1 h2 h3
    rw [isSquareAttacked, isSquareAttackedO, List.any_eq_true]
    refine ⟨f, mem_allPos f, ?_⟩
    rw [hp, Bool.and_eq_true]
    refine ⟨by simp [hc], ?_⟩
    rw [hpt]
    show isPawnMoveValid s f t = true
    rw [isPawnMoveValid, hp]
    simp only [hc]
    rw [if_pos ⟨by omega, by omega, by simp [h3]⟩]
  · intro t h0 h1 h2 h3
    rw [isSquareAttacked, isSquareAttackedO, List.any_eq_true]
    refine ⟨f, mem_allPos f, ?_⟩
    rw [hp, Bool.and_eq_true]
    refine ⟨by simp [hc], ?_⟩
    rw [hpt]
    show isPawnMoveValid s f t = true
    rw [isPawnMoveValid, hp]
    simp only [hc]
    by_cases hone : rI t - rI f = pawnDir byColor
    · rw [if_pos ⟨by omega, hone, by simp [h3]⟩]
    · rw [if_neg (by intro hcontra; exact hone hcontra.2.1)]
      rw [if_pos ⟨by omega, h0, by omega, by simp [h3]⟩]
  · intro t h1 h2
    rw [isPieceMovementValid, isPieceMovementValidO]
    show isPawnMoveValid s f t = true ↔ _
    rw [isPawnMoveValid, hp]
    simp only [hc]
    rw [if_neg (by intro hcontra; omega)]
    rw [if_neg (by intro hcontra; omega)]
    rw [if_pos ⟨h1, by omega⟩]
    cases ht : s.board t with
    | some tp => simp [ht]
    | none => simp [ht]

theorem c10_witness :
    isSquareAttacked pawnAttackState ((5 : Fin 8), (4 : Fin 8)) .white = true ∧
    isSquareAttacked pawnAttackState ((4 : Fin 8), (4 : Fin 8)) .white = true ∧
    ¬(isPieceMovementValid pawnAttackState .pawn ((6 : Fin 8), (4 : Fin 8))
        ((5 : Fin 8), (3 : Fin 8)) = true) := by
  have h := c10_pawn_attack_model pawnAttackState ((6 : Fin 8), (4 : Fin 8))
    ⟨.pawn, .white, false⟩ .white (by decide) rfl rfl
  refine ⟨?_, ?_, ?_⟩
  · exact h.1 ((5 : Fin 8), (4 : Fin 8)) (by decide) (by decide) (by decide)
  · exact h.2.1 ((4 : Fin 8), (4 : Fin 8)) (by decide) (by decide) (by decide) (by decide)
  · intro hmv
    have hdisj := (h.2.2 ((5 : Fin 8), (3 : Fin 8)) (by decide) (by decide)).mp hmv
    rcases hdisj with ⟨tp, htp, _⟩ | hep
    · have hnone : pawnAttackState.board ((5 : Fin 8), (3 : Fin 8)) = none := by decide
      rw [hnone] at htp
      exact Option.noConfusion htp
    · exact absurd hep (by decide)

theorem capturePiece_ep (s : GameState) (p : Piece) :
    (capturePiece s p).enPassantTarget = s.enPassantTarget := rfl

theorem capturePiece_history (s : GameState) (p : Piece) :
    (capturePiece s p).moveHistory = s.moveHistory := rfl

theorem capturePiece_scores (s : GameState) (p : Piece) :
    (capturePiece s p).scores =
      Function.update s.scores p.color.other
        (s.scores p.color.other + pieceValues p.type) := rfl

theorem capturePiece_captured (s : GameState) (p : Piece) :
    (capturePiece s p).capturedPieces =
      Function.update s.capturedPieces p.color.other
        (s.capturedPieces p.color.other ++ [p]) := rfl

theorem castlePhase_ep (s : GameState) (piece : Piece) (f t : Pos) :
    (castlePhase s piece f t).enPassantTarget = s.enPassantTarget := by
  unfold castlePhase
  split
  · dsimp only
    split <;> rfl
  · rfl

theorem castlePhase_history (s : GameState) (piece : Piece) (f t : Pos) :
    (castlePhase s piece f t).moveHistory = s.moveHistory := by
  unfold castlePhase
  split
  · dsimp only
    split <;> rfl
  · rfl

theorem enPassantPhase_ep (s1 : GameState) (piece : Piece) (t : Pos) :
    (enPassantPhase s1 piece t).enPassantTarget = s1.enPassantTarget := by
  unfold enPassantPhase
  split
  · dsimp only
    split
    · split <;> rfl
    · rfl
  · rfl

theorem enPassantPhase_history (s1 : GameState) (piece : Piece) (t : Pos) :
    (enPassantPhase s1 piece t).moveHistory = s1.moveHistory := by
  unfold enPassantPhase
  split
  · dsimp only
    split
    · split <;> rfl
    · rfl
  · rfl

theorem handleSpecialMoves_ep (s : GameState) (f t : Pos) :
    (handleSpecialMoves s f t).enPassantTarget = s.enPassantTarget := by
  unfold handleSpecialMoves
  split
  · rfl
  · rw [enPassantPhase_ep, castlePhase_ep]

theorem handleSpecialMoves_history (s : GameState) (f t : Pos) :
    (handleSpecialMoves s f t).moveHistory = s.moveHistory := by
  unfold handleSpecialMoves
  split
  · rfl
  · rw [enPassantPhase_history, castlePhase_history]

theorem updateCastlingRights_ep (s : GameState) (p : Piece) (f : Pos) :
    (updateCastlingRights s p f).enPassantTarget = s.enPassantTarget := by
  unfold updateCastlingRights
  split_ifs <;> rfl

theorem updateCastlingRights_history (s : GameState) (p : Piece) (f : Pos) :
    (updateCastlingRights s p f).moveHistory = s.moveHistory := by
  unfold updateCastlingRights
  split_ifs <;> rfl

theorem updateEnPassantTarget_history (s : GameState) (p : Piece) (f t : Pos) :
    (updateEnPassantTarget s p f t).moveHistory = s.moveHistory := by
  unfold updateEnPassantTarget
  split <;> rfl

/-- Claim C6: after `makeMove`, the en-passant target is set exactly when the
moved piece is a pawn whose row changed by two (then it is the midpoint row in
the destination column — for a straight two-square advance, the square skipped
over), and is cleared to `none` otherwise; the appended `MoveRecord` stores the
target that was in effect before the move (the record is pushed before
`updateEnPassantTarget` runs). -/
theorem c6_makeMove_enPassant_update (s : GameState) (f t : Pos) (piece : Piece)
    (hp : s.board f = some piece) :
    ((piece.type = .pawn ∧ (rI t - rI f).natAbs = 2) →
      (makeMove s f t).enPassantTarget = mkPos ((rI f + rI t) / 2) (cI t)) ∧
    (¬(piece.type = .pawn ∧ (rI t - rI f).natAbs = 2) →
      (makeMove s f t).enPassantTarget = none) ∧
    (makeMove s f t).moveHistory =
      s.moveHistory ++ [⟨f, t, piece.type, s.board t, s.enPassantTarget⟩] := by
  simp only [makeMove, hp]
  cases hct : s.board t with
  | none =>
      refine ⟨?_, ?_, ?_⟩
      · intro hcond
        rw [updateEnPassantTarget, if_pos hcond]
      · intro hcond
        rw [updateEnPassantTarget, if_neg hcond]
      · rw [updateEnPassantTarget_history]
        simp only [updateCastlingRights_history, updateCastlingRights_ep,
          handleSpecialMoves_history, handleSpecialMoves_ep]
  | some cp =>
      refine ⟨?_, ?_, ?_⟩
      · intro hcond
        rw [updateEnPassantTarget, if_pos hcond]
      · intro hcond
        rw [updateEnPassantTarget, if_neg hcond]
      · rw [updateEnPassantTarget_history]
        simp only [updateCastlingRights_history, updateCastlingRights_ep,
          capturePiece_history, capturePiece_ep,
          handleSpecialMoves_history, handleSpecialMoves_ep]

/-- Claim C3: `canCastle` answers `false` whenever any one of the following
holds — the king has moved, the corresponding rook is absent / not a rook / has
moved, the matching castling-right flag is cleared, a square strictly between
king and rook is occupied, the king is attacked where it stands, or a square
the king transits (destination included) is attacked (the code tests the
transit squares with `wouldBeInCheck`, i.e. with a king hypothetically placed
there, exactly as the spec describes).  Stated over an arbitrary oracle closing
the attack-detection recursion, so it covers every fuel instantiation. -/
theorem c3_canCastle_rejections (oracle : CastleOracle) (s : GameState) (f t : Pos)
    (piece : Piece) (hp : s.board f = some piece)
    (hcond :
      piece.hasMoved = true
      ∨ (∀ rook : Piece,
          s.board (f.1, if cI f < cI t then (7 : Fin 8) else 0) = some rook →
          rook.type ≠ .rook ∨ rook.hasMoved = true)
      ∨ (if cI f < cI t then (s.castlingRights piece.color).kingside
         else (s.castlingRights piece.color).queenside) = false
      ∨ (∃ c : Fin 8,
          min (cI f) (if cI f < cI t then (7 : Int) else 0) < (c : Int) ∧
          (c : Int) < max (cI f) (if cI f < cI t then (7 : Int) else 0) ∧
          (s.board (f.1, c)).isSome = true)
      ∨ isInCheckO oracle s piece.color = true
      ∨ (∃ q : Pos,
          (mkPos (rI f) (cI f + (if cI f < cI t then 1 else -1)) = some q ∨
            mkPos (rI f) (cI f + 2 * (if cI f < cI t then 1 else -1)) = some q) ∧
          wouldBeInCheckO oracle s piece.color q = true)) :
    canCastleO oracle s f t = false := by
  have hbridge : cI (f.1, (if cI f < cI t then (7 : Fin 8) else 0)) =
      (if cI f < cI t then (7 : Int) else 0) := by
    by_cases hks : cI f < cI t
    · rw [if_pos hks, if_pos hks]
      rfl
    · rw [if_neg hks, if_neg hks]
      rfl
  cases hres : canCastleO oracle s f t with
  | false => rfl
  | true =>
    exfalso
    unfold canCastleO at hres
    rw [hp] at hres
    dsimp only at hres
    by_cases h1 : piece.hasMoved = true
    · rw [if_pos h1] at hres
      exact Bool.false_ne_true hres
    rw [if_neg h1] at hres
    cases hrk : s.board (f.1, if cI f < cI t then (7 : Fin 8) else 0) with
    | none =>
        rw [hrk] at hres
        exact Bool.false_ne_true hres
    | some rook =>
    rw [hrk] at hres
    dsimp only at hres
    by_cases h2 : rook.type ≠ PieceType.rook ∨ rook.hasMoved = true
    · rw [if_pos h2] at hres
      exact Bool.false_ne_true hres
    rw [if_neg h2] at hres
    by_cases h3 : (if cI f < cI t then (s.castlingRights piece.color).kingside
        else (s.castlingRights piece.color).queenside) = true
    swap
    · rw [if_pos (by simp [Bool.not_eq_true] at h3 ⊢; exact h3)] at hres
      exact Bool.false_ne_true hres
    rw [if_neg (by simp [h3])] at hres
    cases h4 : ((List.finRange 8).all fun c =>
        !(decide (min (cI f) (cI (f.1, if cI f < cI t then (7 : Fin 8) else 0)) < (c : Int) ∧
            (c : Int) < max (cI f) (cI (f.1, if cI f < cI t then (7 : Fin 8) else 0)))) ||
          !(s.board (f.1, c)).isSome) with
    | false =>
        rw [if_pos (show _ = true by rw [h4]; rfl)] at hres
        exact Bool.false_ne_true hres
    | true =>
    rw [if_neg (show ¬_ = true by rw [h4]; decide)] at hres
    by_cases h5 : isInCheckO oracle s piece.color = true
    · rw [if_pos h5] at hres
      exact Bool.false_ne_true hres
    rw [if_neg h5] at hres
    cases hq1 : mkPos (rI f) (cI f + (if cI f < cI t then 1 else -1)) with
    | none =>
        rw [hq1] at hres
        cases hq2 : mkPos (rI f) (cI f + 2 * (if cI f < cI t then 1 else -1)) <;>
          rw [hq2] at hres <;> exact Bool.false_ne_true hres
    | some q1 =>
    cases hq2 : mkPos (rI f) (cI f + 2 * (if cI f < cI t then 1 else -1)) with
    | none =>
        rw [hq1, hq2] at hres
        exact Bool.false_ne_true hres
    | some q2 =>
    rw [hq1, hq2] at hres
    dsimp only at hres
    by_cases h6 : wouldBeInCheckO oracle s piece.color q1 = true
    · rw [if_pos h6] at hres
      exact Bool.false_ne_true hres
    rw [if_neg h6] at hres
    by_cases h7 : wouldBeInCheckO oracle s piece.color q2 = true
    · rw [if_pos h7] at hres
      exact Bool.false_ne_true hres
    rcases hcond with hA | hB | hC | hD | hE | hF
    · exact h1 hA
    · rcases hB rook hrk with hB1 | hB2
      · exact h2 (Or.inl hB1)
      · exact h2 (Or.inr hB2)
    · rw [h3] at hC
      exact Bool.noConfusion hC
    · rcases hD with ⟨c, hlo, hhi, hocc⟩
      have hall := List.all_eq_true.mp h4 c (List.mem_finRange c)
      rw [hbridge] at hall
      rcases (Bool.or_eq_true _ _).mp hall with hleft | hright
      · rw [Bool.not_eq_true'] at hleft
        exact absurd ⟨hlo, hhi⟩ (of_decide_eq_false hleft)
      · rw [Bool.not_eq_true'] at hright
        rw [hocc] at hright
        exact Bool.noConfusion hright
    · exact h5 hE
    · rcases hF with ⟨q, hq, hw⟩
      rcases hq with hqe | hqe
      · rw [hq1] at hqe
        injection hqe with hqq
        rw [hqq] at h6
        exact h6 hw
      · rw [hq2] at hqe
        injection hqe with hqq
        rw [hqq] at h7
        exact h7 hw

theorem c3_witness :
    canCastleO castleOracle initialState ((7 : Fin 8), (4 : Fin 8))
      ((7 : Fin 8), (6 : Fin 8)) = false :=
  c3_canCastle_rejections castleOracle initialState ((7 : Fin 8), (4 : Fin 8))
    ((7 : Fin 8), (6 : Fin 8)) ⟨.king, .white, false⟩ (by decide)
    (Or.inr (Or.inr (Or.inr (Or.inl
      ⟨(5 : Fin 8), by decide, by decide, by decide⟩))))

theorem Color.other_other (c : Color) : c.other.other = c := by
  cases c <;> rfl

theorem sumValues_append (l : List Piece) (p : Piece) :
    sumValues (l ++ [p]) = sumValues l + pieceValues p.type := by
  simp [sumValues]

theorem capturePiece_scoreInv (s : GameState) (p : Piece) (c : Color)
    (h : ScoreInv s c) : ScoreInv (capturePiece s p) c := by
  rcases h with ⟨hsum, hcol⟩
  by_cases hc : c = p.color.other
  · subst hc
    constructor
    · rw [capturePiece_scores, capturePiece_captured,
        Function.update_same, Function.update_same, sumValues_append, hsum]
    · rw [capturePiece_captured, Function.update_same]
      intro q hq
      rcases List.mem_append.mp hq with hql | hqr
      · exact hcol q hql
      · rw [List.mem_singleton.mp hqr]
        rw [Color.other_other]
  · constructor
    · rw [capturePiece_scores, capturePiece_captured,
        Function.update_noteq hc, Function.update_noteq hc]
      exact hsum
    · rw [capturePiece_captured, Function.update_noteq hc]
      exact hcol

theorem castlePhase_scoreInv (s : GameState) (piece : Piece) (f t : Pos) (c : Color)
    (h : ScoreInv s c) : ScoreInv (castlePhase s piece f t) c := by
  unfold castlePhase
  split
  · dsimp only
    split
    · exact h
    · exact h
  · exact h

theorem enPassantPhase_scoreInv (s1 : GameState) (piece : Piece) (t : Pos) (c : Color)
    (h : ScoreInv s1 c) : ScoreInv (enPassantPhase s1 piece t) c := by
  unfold enPassantPhase
  split
  · dsimp only
    split
    · split
      · exact capturePiece_scoreInv s1 _ c h
      · exact h
    · exact h
  · exact h

theorem handleSpecialMoves_scoreInv (s : GameState) (f t : Pos) (c : Color)
    (h : ScoreInv s c) : ScoreInv (handleSpecialMoves s f t) c := by
  unfold handleSpecialMoves
  split
  · exact h
  · exact enPassantPhase_scoreInv _ _ _ c (castlePhase_scoreInv _ _ _ _ c h)

theorem updateCastlingRights_scoreInv (s : GameState) (p : Piece) (f : Pos) (c : Color)
    (h : ScoreInv s c) : ScoreInv (updateCastlingRights s p f) c := by
  unfold updateCastlingRights
  split_ifs <;> exact h

theorem updateEnPassantTarget_scoreInv (s : GameState) (p : Piece) (f t : Pos) (c : Color)
    (h : ScoreInv s c) : ScoreInv (updateEnPassantTarget s p f t) c := by
  unfold updateEnPassantTarget
  split <;> exact h

theorem makeMove_scoreInv (s : GameState) (f t : Pos) (c : Color)
    (h : ScoreInv s c) : ScoreInv (makeMove s f t) c := by
  unfold makeMove
  split
  · exact h
  · dsimp only
    apply updateEnPassantTarget_scoreInv
    show ScoreInv { updateCastlingRights _ _ _ with moveHistory := _ } c
    have h1 := handleSpecialMoves_scoreInv s f t c h
    have h2 : ScoreInv (match s.board t with
        | some cp => capturePiece (handleSpecialMoves s f t) cp
        | none => handleSpecialMoves s f t) c := by
      cases s.board t with
      | some cp => exact capturePiece_scoreInv _ _ c h1
      | none => exact h1
    exact updateCastlingRights_scoreInv _ _ _ c h2

theorem seqSt4_reachable : Reachable seqSt4 := by
  have h1 : Reachable seqSt1 := by
    unfold seqSt1
    exact Reachable.step Reachable.init (by decide)
  have h2 : Reachable seqSt2 := by
    unfold seqSt2
    exact Reachable.step h1 (by decide)
  have h3 : Reachable seqSt3 := by
    unfold seqSt3
    exact Reachable.step h2 (by decide)
  unfold seqSt4
  exact Reachable.step h3 (by decide)

/-- Claim C7 counterexample: after the reachable capture sequence
1. e2-e4 d7-d5 2. a2-a3 d5xe4, the white pawn that black captured is stored in
`captured[black]` — under the colour that captured it — while
`captured[white]` is empty, so the claim's convention "a captured piece is
recorded under the colour that lost it" is false on this reachable state. -/
theorem c7_counterexample :
    Reachable seqSt4 ∧
    seqSt4.capturedPieces Color.black = [⟨.pawn, .white, true⟩] ∧
    seqSt4.capturedPieces Color.white = [] ∧
    ¬capturedUnderOwnColor seqSt4 := by
  have hblack : seqSt4.capturedPieces Color.black = [⟨.pawn, .white, true⟩] := by decide
  refine ⟨seqSt4_reachable, hblack, by decide, ?_⟩
  intro h
  have hcol := h Color.black ⟨.pawn, .white, true⟩
    (by rw [hblack]; exact List.mem_singleton_self _)
  exact absurd hcol (by decide)

/-- Claim C7 (amended): in every state reachable from the initial game, each
colour's score equals the summed piece values of its captured list, and every
piece in `captured[c]` has colour `c.other` — a captured piece is recorded
under the colour that captured it (the opponent of the piece's owner), not
under the colour that lost it. -/
theorem c7_captured_score_invariant (s : GameState) (hs : Reachable s) (c : Color) :
    s.scores c = sumValues (s.capturedPieces c) ∧
    ∀ p ∈ s.capturedPieces c, p.color = c.other := by
  have inv : ScoreInv s c := by
    induction hs with
    | init => exact ⟨rfl, fun p hp => absurd hp (List.not_mem_nil p)⟩
    | step hs hv ih => exact makeMove_scoreInv _ _ _ c ih
  exact inv

theorem c7_witness :
    seqSt4.scores Color.black = sumValues (seqSt4.capturedPieces Color.black) ∧
    ∀ p ∈ seqSt4.capturedPieces Color.black, p.color = Color.black.other :=
  c7_captured_score_invariant seqSt4 seqSt4_reachable Color.black

theorem insertByDesc_ne_nil (v : Move → Nat) (m : Move) (l : List Move) :
    insertByDesc v m l ≠ [] := by
  cases l with
  | nil => exact List.cons_ne_nil m []
  | cons x xs =>
      unfold insertByDesc
      split
      · exact List.cons_ne_nil m (x :: xs)
      · exact List.cons_ne_nil x (insertByDesc v m xs)

theorem foldr_max_le (v : Move → Nat) (l : List Move) :
    ∀ x ∈ l, v x ≤ (l.map v).foldr max 0 := by
  induction l with
  | nil => intro x hx; exact absurd hx (List.not_mem_nil x)
  | cons a as ih =>
      intro x hx
      rcases List.mem_cons.mp hx with hxa | hxs
      · rw [hxa]
        exact le_max_left _ _
      · exact le_trans (ih x hxs) (le_max_right _ _)

theorem sortByDesc_head_eq_find (v : Move → Nat) (l : List Move) (h : l ≠ []) :
    (sortByDesc v l).head? = l.find? fun m => v m == (l.map v).foldr max 0 := by
  induction l with
  | nil => exact absurd rfl h
  | cons x xs ih =>
      cases xs with
      | nil => simp [sortByDesc, insertByDesc, Nat.max_zero]
      | cons y ys =>
          have hxs : y :: ys ≠ [] := List.cons_ne_nil y ys
          have ihx := ih hxs
          cases hs : sortByDesc v (y :: ys) with
          | nil => exact absurd hs (by
              unfold sortByDesc
              exact insertByDesc_ne_nil v y (sortByDesc v ys))
          | cons hh tt =>
          rw [hs] at ihx
          have hfind : (y :: ys).find?
              (fun m => v m == ((y :: ys).map v).foldr max 0) = some hh := ihx.symm
          have hpred : (v hh == ((y :: ys).map v).foldr max 0) = true := by
            have hraw := List.find?_some hfind
            simpa using hraw
          have hmem : hh ∈ y :: ys := List.mem_of_find?_eq_some hfind
          have hval : v hh = ((y :: ys).map v).foldr max 0 := by simpa using hpred
          show (insertByDesc v x (sortByDesc v (y :: ys))).head? = _
          rw [hs]
          unfold insertByDesc
          by_cases hcmp : v hh ≤ v x
          · rw [if_pos hcmp]
            have hMx : ((x :: y :: ys).map v).foldr max 0 = v x := by
              show max (v x) (((y :: ys).map v).foldr max 0) = v x
              exact max_eq_left (le_trans (le_of_eq hval.symm) hcmp)
            rw [List.find?_cons_of_pos _ (by rw [hMx]; simp)]
            rfl
          · rw [if_neg hcmp]
            have hlt : v x < v hh := lt_of_not_le hcmp
            have hMx : ((x :: y :: ys).map v).foldr max 0 =
                ((y :: ys).map v).foldr max 0 := by
              show max (v x) (((y :: ys).map v).foldr max 0) = _
              exact max_eq_right (le_trans (le_of_lt hlt) (le_of_eq hval))
            rw [List.find?_cons_of_neg _ (by
              rw [hMx, ← hval]
              intro hbeq
              have hx : v x = v hh := by simpa using hbeq
              exact absurd hx (Nat.ne_of_lt hlt))]
            rw [hMx]
            exact ihx

/-- Claim C8: at hard difficulty, whenever the candidate set contains a
capture, `getHardMove` ignores its random fallback entirely: for every random
draw it returns the first capture (in scan order) whose captured piece has the
highest `pieceValues` value — the statement `specHardChoice` renders directly
from the spec's words — and repeated calls agree. -/
theorem c8_hard_capture_selection (s : GameState) (moves : List Move) (r1 r2 : Nat)
    (h : moves.filter (fun m => (s.board m.toSq).isSome) ≠ []) :
    getHardMove s moves r1 = specHardChoice s moves ∧
    getHardMove s moves r1 = getHardMove s moves r2 := by
  have key : ∀ r : Nat, getHardMove s moves r = specHardChoice s moves := by
    intro r
    unfold getHardMove specHardChoice
    dsimp only
    rw [if_pos h]
    rw [sortByDesc_head_eq_find (capVal s) _ h]
    rfl
  rw [key r1, key r2]
  exact ⟨rfl, rfl⟩

theorem c8_witness :
    getHardMove c8State c8Moves 0 =
      some ⟨((0 : Fin 8), (0 : Fin 8)), ((4 : Fin 8), (0 : Fin 8))⟩ ∧
    getHardMove c8State c8Moves 0 = getHardMove c8State c8Moves 37 := by
  have h := c8_hard_capture_selection c8State c8Moves 0 37 (by decide)
  refine ⟨?_, h.2⟩
  rw [h.1]
  decide

theorem setSq_put_back (b : Board) (kp : Pos) (v : Option Piece) :
    setSq (setSq b kp v) kp (b kp) = b := by
  unfold setSq
  rw [Function.update_idem, Function.update_eq_self]

theorem setSq_restore (b : Board) (f t : Pos) (p : Piece) (h : b f = some p) :
    setSq (setSq (setSq (setSq b t (some p)) f none) f (some p)) t (b t) = b := by
  funext q
  unfold setSq
  rcases eq_or_ne q t with hqt | hqt
  · subst hqt
    rw [Function.update_same]
  · rw [Function.update_noteq hqt]
    rcases eq_or_ne q f with hqf | hqf
    · subst hqf
      rw [Function.update_same, h]
    · rw [Function.update_noteq hqf, Function.update_noteq hqf,
        Function.update_noteq hqt]

theorem foldl_snd_eq {α : Type} (g : Bool × GameState → α → Bool × GameState)
    (hg : ∀ acc x, (g acc x).2 = acc.2) :
    ∀ (l : List α) (acc : Bool × GameState), (l.foldl g acc).2 = acc.2 := by
  intro l
  induction l with
  | nil => intro acc; rfl
  | cons x xs ih =>
      intro acc
      rw [List.foldl_cons, ih, hg]

theorem isKingMoveValidRunO_state (o : CastleOracleRun) (ho : PreservesRun o)
    (s : GameState) (f t : Pos) : (isKingMoveValidRunO o s f t).2 = s := by
  unfold isKingMoveValidRunO
  dsimp only
  split
  · rfl
  split
  · exact ho s f t
  · rfl

theorem isPieceMovementValidRunO_state (o : CastleOracleRun) (ho : PreservesRun o)
    (s : GameState) (pt : PieceType) (f t : Pos) :
    (isPieceMovementValidRunO o s pt f t).2 = s := by
  cases pt <;>
    first
      | rfl
      | exact isKingMoveValidRunO_state o ho s f t

theorem isSquareAttackedRunO_state (o : CastleOracleRun) (ho : PreservesRun o)
    (s : GameState) (p : Pos) (byColor : Color) :
    (isSquareAttackedRunO o s p byColor).2 = s := by
  unfold isSquareAttackedRunO
  refine foldl_snd_eq _ (fun acc x => ?_) allPos (false, s)
  dsimp only
  split
  · rfl
  · split
    · split
      · exact isPieceMovementValidRunO_state o ho acc.2 _ x p
      · rfl
    · rfl

theorem isInCheckRunO_state (o : CastleOracleRun) (ho : PreservesRun o)
    (s : GameState) (c : Color) : (isInCheckRunO o s c).2 = s := by
  unfold isInCheckRunO
  split
  · rfl
  · exact isSquareAttackedRunO_state o ho s _ c.other

theorem wouldBeInCheckRun_state (o : CastleOracleRun) (ho : PreservesRun o)
    (s : GameState) (c : Color) (kp : Pos) : (wouldBeInCheckRun o s c kp).2 = s := by
  unfold wouldBeInCheckRun
  dsimp only
  rw [isSquareAttackedRunO_state o ho]
  dsimp only
  rw [setSq_put_back s.board kp (some ⟨.king, c, false⟩)]

theorem canCastleRunO_state (o : CastleOracleRun) (ho : PreservesRun o)
    (s : GameState) (f t : Pos) : (canCastleRunO o s f t).2 = s := by
  unfold canCastleRunO
  cases s.board f with
  | none => rfl
  | some piece =>
  dsimp only
  split
  · rfl
  cases s.board (f.1, if cI f < cI t then (7 : Fin 8) else 0) with
  | none => rfl
  | some rook =>
  dsimp only
  repeat' split
  all_goals
    simp only [wouldBeInCheckRun_state o ho, isInCheckRunO_state o ho]

theorem canCastleRunF_state : ∀ n, PreservesRun (canCastleRunF n) := by
  intro n
  induction n with
  | zero => intro s f t; rfl
  | succ n ih => intro s f t; exact canCastleRunO_state _ ih s f t

theorem wouldLeaveKingInCheckRun_state (o : CastleOracleRun) (ho : PreservesRun o)
    (s : GameState) (f t : Pos) : (wouldLeaveKingInCheckRun o s f t).2 = s := by
  unfold wouldLeaveKingInCheckRun
  cases hp : s.board f with
  | none => rfl
  | some piece =>
      dsimp only
      rw [isInCheckRunO_state o ho]
      dsimp only
      rw [setSq_restore s.board f t piece hp]

theorem isValidMoveRunO_state (o : CastleOracleRun) (ho : PreservesRun o)
    (s : GameState) (f t : Pos) : (isValidMoveRunO o s f t).2 = s := by
  unfold isValidMoveRunO
  cases hp : s.board f with
  | none => rfl
  | some piece =>
      dsimp only
      split
      · rfl
      split
      · rfl
      split
      · rw [isPieceMovementValidRunO_state o ho]
      split <;>
        rw [wouldLeaveKingInCheckRun_state o ho, isPieceMovementValidRunO_state o ho]

/-- Claim C5: evaluating `isValidMove` — with the board mutations of its
internal simulations (`wouldLeaveKingInCheck`, and `wouldBeInCheck` inside the
castling checks) threaded explicitly — always returns with the game state
exactly as it was before the call, on every path including every rejection:
the final state (hence the board, castling rights, en-passant target, scores
and captured-piece lists) equals the input state. -/
theorem c5_isValidMove_state_unchanged (s : GameState) (f t : Pos) :
    (isValidMoveRun s f t).2 = s :=
  isValidMoveRunO_state castleOracleRun (canCastleRunF_state castleFuel) s f t

theorem c6_witness :
    (makeMove initialState ((6 : Fin 8), (4 : Fin 8)) ((4 : Fin 8), (4 : Fin 8))).enPassantTarget =
      mkPos (((6 : Int) + 4) / 2) 4 ∧
    (makeMove initialState ((6 : Fin 8), (4 : Fin 8)) ((4 : Fin 8), (4 : Fin 8))).moveHistory =
      initialState.moveHistory ++
        [⟨((6 : Fin 8), (4 : Fin 8)), ((4 : Fin 8), (4 : Fin 8)), .pawn,
          initialState.board ((4 : Fin 8), (4 : Fin 8)), initialState.enPassantTarget⟩] :=
  ⟨(c6_makeMove_enPassant_update initialState ((6 : Fin 8), (4 : Fin 8))
      ((4 : Fin 8), (4 : Fin 8)) ⟨.pawn, .white, false⟩ (by decide)).1 ⟨rfl, by decide⟩,
   (c6_makeMove_enPassant_update initialState ((6 : Fin 8), (4 : Fin 8))
      ((4 : Fin 8), (4 : Fin 8)) ⟨.pawn, .white, false⟩ (by decide)).2.2⟩

end Chess
